import Mathlib

/-!
Verification of the seo-auditor-service chunking / batched-analysis pipeline.

Shallow embedding of the relevant parts of the source:
  * `src/services/chunkService.js`  — token estimation cache and chunking
  * `src/services/auditService.js`  — batched dispatch, retry, response parsing,
    deterministic fallback scoring
  * `src/services/reportService.js` — aggregation of per-page analyses

JavaScript conventions are made explicit: absent object fields are `Option`,
string truthiness is "nonempty", machine arithmetic on the small integer
values involved is exact, and the cooperative concurrency of `Promise.all`
windows is modelled by an explicit completion schedule.
-/

namespace SeoAudit

/-- JS `v || d` for string-valued fields: `undefined` and `""` are falsy. -/
def jsOr (v : Option String) (d : String) : String :=
  match v with
  | none => d
  | some s => if s = "" then d else s

/-- JS truthiness of an optional string field. -/
def truthy (v : Option String) : Bool :=
  match v with
  | none => false
  | some s => s ≠ ""

/-- JS `\s` whitespace class (ASCII range; the pipeline's strings are ASCII). -/
def isJsWs (c : Char) : Bool :=
  c = ' ' || c = '\t' || c = '\n' || c = '\r' || c = '\x0b' || c = '\x0c'

/-- Numeric value of a run of decimal digit characters. -/
def digitsVal (l : List Char) : Nat :=
  l.foldl (fun acc c => 10 * acc + (c.toNat - '0'.toNat)) 0

/-- JS whitespace trim (`String.prototype.trim`), over the code units. -/
def jsTrim (s : String) : String :=
  ⟨((s.data.dropWhile (isJsWs ·)).reverse.dropWhile (isJsWs ·)).reverse⟩

/-- JS `substring(0, n)` (by code units). -/
def jsTake (s : String) (n : Nat) : String :=
  ⟨s.data.take n⟩

/-- JS `slice(n)` / `substring(n)`. -/
def jsDrop (s : String) (n : Nat) : String :=
  ⟨s.data.drop n⟩

/-- JS `startsWith`. -/
def jsStartsWith (s pat : String) : Bool :=
  pat.data.isPrefixOf s.data

/-- Longest prefix of code units satisfying a predicate. -/
def jsTakeWhile (p : Char → Bool) (s : String) : String :=
  ⟨s.data.takeWhile p⟩

/-- JS `toLowerCase` (ASCII range, which is all the marker parsing needs). -/
def jsToLower (s : String) : String :=
  ⟨s.data.map Char.toLower⟩

/-- `Array.prototype.join(sep)`. -/
def jsIntercalate (sep : String) (l : List String) : String :=
  ⟨List.intercalate sep.data (l.map String.data)⟩

/-- Worker for `jsSplitOn`: JS `String.prototype.split` with a string
    separator — scan left to right, cut at each occurrence of the separator,
    resume after it. -/
def splitOnCharsGo (sep : List Char) : List Char → List Char → List (List Char)
  | [], acc => [acc.reverse]
  | c :: rest, acc =>
    if h : sep ≠ [] ∧ sep.isPrefixOf (c :: rest) then
      acc.reverse :: splitOnCharsGo sep ((c :: rest).drop sep.length) []
    else splitOnCharsGo sep rest (c :: acc)
termination_by l _ => l.length
decreasing_by
  · have hlen : 0 < sep.length := List.length_pos.mpr h.1
    simp only [List.length_drop, List.length_cons]
    omega
  · simp only [List.length_cons]
    omega

/-- JS `s.split(sep)`. -/
def jsSplitOn (s sep : String) : List String :=
  (splitOnCharsGo sep.data s.data []).map (fun l => String.mk l)

/-- JS `parseInt(s) || 0`: trim, optional sign, value of the leading digit run;
    no digits (`NaN`) becomes `0`. -/
def jsParseIntOrZero (s : String) : Int :=
  let t := jsTrim s
  let sgn : Int := if jsStartsWith t "-" then -1 else 1
  let rest := if jsStartsWith t "-" || jsStartsWith t "+" then jsDrop t 1 else t
  let ds := jsTakeWhile Char.isDigit rest
  if ds = "" then 0 else sgn * (digitsVal ds.data : Int)

/-- JS `parseInt(field) || 0` where the field may be absent. -/
def jsParseIntField (v : Option String) : Int :=
  match v with
  | none => 0
  | some s => jsParseIntOrZero s

/-- One row of the Screaming Frog CSV export, as consumed by the pipeline.
    Lean field ↦ CSV column: `address` ↦ `Address`, `url` ↦ `URL`,
    `title` ↦ `Title`, `metaDescription1` ↦ `Meta Description 1`,
    `h1First` ↦ `H1-1`, `h1Second` ↦ `H1-2`, `wordCount` ↦ `Word Count`,
    `statusCode` ↦ `Status Code`, `indexability` ↦ `Indexability`,
    `canonicalLinkElement1` ↦ `Canonical Link Element 1`,
    `inlinks` ↦ `Inlinks`, `outlinks` ↦ `Outlinks`.
    Cells are strings; an absent cell is `none`. -/
structure PageRecord where
  address : Option String := none
  url : Option String := none
  title : Option String := none
  metaDescription1 : Option String := none
  h1First : Option String := none
  h1Second : Option String := none
  wordCount : Option String := none
  statusCode : Option String := none
  indexability : Option String := none
  canonicalLinkElement1 : Option String := none
  inlinks : Option String := none
  outlinks : Option String := none
deriving DecidableEq

/-- The structured per-page record produced by `_extractPageData` /
    `_generateBasicPageAnalysis` (auditService.js). -/
structure PageAnalysis where
  url : String
  title : String
  metaDescription : String
  seoScore : Nat
  issues : List String
  quickWins : List String
  recommendations : List String
  priority : String
  estimatedImpact : String
deriving DecidableEq

/-! ## chunkService.js -/

/-- chunkService.js:18 — `text.length + '_' + text.substring(0, 50)`. -/
def cacheKey (text : String) : String :=
  Nat.repr text.length ++ "_" ++ jsTake text 50

/-- The process-local token-estimation cache. A JS `Map` iterates in insertion
    order, so the front of `entries` holds the oldest entries. -/
structure TokenCache where
  entries : List (String × Nat) := []
  cacheHits : Nat := 0
  cacheMisses : Nat := 0
deriving DecidableEq

/-- chunkService.js:14-39 — `estimateTokensFast`: memoised `Math.ceil(length/4)`
    approximation; on a miss the result is inserted and, when the size exceeds
    2000, the 500 oldest entries are evicted. Returns value and updated cache. -/
def estimateTokensFast (c : TokenCache) (text : String) : Nat × TokenCache :=
  if text = "" then (0, c)
  else
    let key := cacheKey text
    match c.entries.lookup key with
    | some v => (v, { c with cacheHits := c.cacheHits + 1 })
    | none =>
      let approximateTokens := (text.length + 3) / 4
      let entries := c.entries ++ [(key, approximateTokens)]
      let entries := if entries.length > 2000 then entries.drop 500 else entries
      (approximateTokens, { c with cacheMisses := c.cacheMisses + 1, entries := entries })

/-- The value `estimateTokensFast` computes for a text, ignoring the cache
    bookkeeping (`Math.ceil(text.length / 4)`, `0` for the falsy empty text). -/
def estimateTokensPure (text : String) : Nat :=
  if text = "" then 0 else (text.length + 3) / 4

/-- chunkService.js:42-61 — `chunkBySize`: batches of `chunkSize` consecutive
    rows (the last may be smaller). The source's `for` loop does not terminate
    for `chunkSize = 0`; callers pass 25/30, and the model returns `[]` there. -/
def chunkBySize {α : Type} : List α → Nat → List (List α)
  | [], _ => []
  | _ :: _, 0 => []
  | x :: xs, n + 1 => (x :: xs.take n) :: chunkBySize (xs.drop n) (n + 1)
termination_by rows _ => rows.length
decreasing_by simp [List.length_drop]; omega

/-- chunkService.js:135-152 — `_createOptimizedRowString`: join the truthy,
    non-blank essential fields (each capped at 200 units) with " | ". -/
def createOptimizedRowString (row : PageRecord) : String :=
  let essentialFields : List (Option String) :=
    [row.address, row.url, row.title, row.metaDescription1, row.h1First, row.h1Second,
     row.wordCount, row.statusCode, row.indexability, row.canonicalLinkElement1,
     row.inlinks, row.outlinks]
  let values := essentialFields.filterMap fun v =>
    match v with
    | some s => if s ≠ "" && jsTrim s ≠ "" then some (jsTake s 200) else none
    | none => none
  jsIntercalate " | " values

/-- Loop state of `chunkByTokensFast`: finished chunks, current chunk, its
    token count, and the token cache. -/
structure ChunkState where
  chunks : List (List PageRecord)
  currentChunk : List PageRecord
  tokenCount : Nat
  cache : TokenCache

/-- One iteration of the `for (const row of rows)` loop of
    `chunkByTokensFast` (chunkService.js:97-109). -/
def chunkStep (tokenLimit : Nat) (st : ChunkState) (row : PageRecord) : ChunkState :=
  let est := estimateTokensFast st.cache (createOptimizedRowString row)
  let rowTokens := est.1
  if st.tokenCount + rowTokens > tokenLimit && !st.currentChunk.isEmpty then
    { chunks := st.chunks ++ [st.currentChunk], currentChunk := [row],
      tokenCount := rowTokens, cache := est.2 }
  else
    { st with
        currentChunk := st.currentChunk ++ [row]
        tokenCount := st.tokenCount + rowTokens
        cache := est.2 }

/-- chunkService.js:86-132 — `chunkByTokensFast`: greedy token-bounded
    chunking; a final non-empty current chunk is flushed. Returns the chunks
    and the updated token cache. -/
def chunkByTokensFast (cache : TokenCache) (rows : List PageRecord) (tokenLimit : Nat) :
    List (List PageRecord) × TokenCache :=
  let st := rows.foldl (chunkStep tokenLimit) ⟨[], [], 0, cache⟩
  (if st.currentChunk.isEmpty then st.chunks else st.chunks ++ [st.currentChunk], st.cache)

/-! ## auditService.js — deterministic fallback scoring -/

/-- auditService.js:443-452 — `_calculateBasicScore`: 50 plus fixed bonuses,
    capped at 100. The page may be `undefined` (optional chaining). -/
def calculateBasicScore (pageData : Option PageRecord) : Nat :=
  let score := 50
  let score := if truthy (pageData.bind (·.title)) then score + 15 else score
  let score := if truthy (pageData.bind (·.metaDescription1)) then score + 15 else score
  let score := if truthy (pageData.bind (·.h1First)) then score + 10 else score
  let wordCount := jsParseIntField (pageData.bind (·.wordCount))
  let score := if wordCount > 300 then score + 10 else score
  let score := if pageData.bind (·.statusCode) = some "200" then score + 10 else score
  min 100 score

/-- auditService.js:186-219 — the body of the `map` inside
    `_generateBasicPageAnalysis` for one page. The local `title` and
    `metaDescription` already carry the truthy defaults, so their bonuses and
    issue checks act on the defaulted values, exactly as in the source. -/
def basicAnalysisOne (page : PageRecord) : PageAnalysis :=
  let url := jsOr page.address (jsOr page.url "Unknown")
  let title := jsOr page.title "No title"
  let metaDescription := jsOr page.metaDescription1 "Missing"
  let score := 50
  let score := if title ≠ "" then score + 15 else score
  let score := if metaDescription ≠ "" then score + 15 else score
  let score := if truthy page.h1First then score + 10 else score
  let score := if page.statusCode = some "200" then score + 10 else score
  let wordCount := jsParseIntField page.wordCount
  let score := if wordCount > 300 then score + 10 else score
  let issues : List String :=
    (if title = "" then ["Missing page title"] else []) ++
    (if metaDescription = "" then ["Missing meta description"] else []) ++
    (if !truthy page.h1First then ["Missing H1 tag"] else []) ++
    (if wordCount < 300 then ["Thin content"] else [])
  { url := url
    title := title
    metaDescription := metaDescription
    seoScore := min 100 score
    issues := issues.take 3
    quickWins := issues.take 2
    recommendations := ["Optimize " ++ jsOr issues.head? "page structure"]
    priority := if score < 60 then "High" else if score < 80 then "Medium" else "Low"
    estimatedImpact := if score < 60 then "High" else "Medium" }

/-- auditService.js:185-220 — `_generateBasicPageAnalysis`: deterministic
    fallback analysis of the first 50 pages (`pageData.slice(0, 50).map`). -/
def generateBasicPageAnalysis (pageData : List PageRecord) : List PageAnalysis :=
  (pageData.take 50).map basicAnalysisOne

/-! ## auditService.js — response parsing

The regex extractions are modelled as scanners over the character list.
A scanner advances one position at a time, exactly as the regex engine
searches for the next viable starting position. -/

/-- Case-insensitive prefix test (regex `/i` flag). -/
def ciIsPrefixOf (pat s : List Char) : Bool :=
  (pat.map Char.toLower).isPrefixOf (s.map Char.toLower)

/-- Capture of `(.+)` after `\s*` at a given suffix: if a non-whitespace
    character survives the greedy `\s*`, the capture is the rest of that
    line; otherwise the engine backtracks into the whitespace run and the
    capture is its last non-newline character, if any (`.` refuses `\n`). -/
def urlCapture (t : List Char) : Option (List Char) :=
  let after := t.dropWhile (isJsWs ·)
  if after.isEmpty then
    ((t.takeWhile (isJsWs ·)).reverse.find? (fun c => decide (c ≠ '\n'))).map (fun c => [c])
  else some (after.takeWhile (fun c => decide (c ≠ '\n')))

/-- auditService.js:385 — `/URL:\s*(.+)/i`: first position where the label and
    a non-empty capture match. -/
def scanUrl : List Char → Option (List Char)
  | [] => none
  | c :: rest =>
    if ciIsPrefixOf "url:".data (c :: rest) then
      match urlCapture ((c :: rest).drop 4) with
      | some cap => some cap
      | none => scanUrl rest
    else scanUrl rest

/-- auditService.js:391 — `/SEO SCORE:\s*(\d+)/i` followed by `parseInt`:
    value of the digit run after the label (whitespace cannot satisfy `\d`,
    so a failed digit match just moves the search on). -/
def scanScore : List Char → Option Nat
  | [] => none
  | c :: rest =>
    if ciIsPrefixOf "seo score:".data (c :: rest) then
      let ds := (((c :: rest).drop 10).dropWhile (isJsWs ·)).takeWhile Char.isDigit
      if ds.isEmpty then scanScore rest else some (digitsVal ds)
    else scanScore rest

/-- auditService.js:425 — `/PRIORITY:\s*(High|Medium|Low)/i`: the capture
    keeps the original casing of the matched alternative. -/
def scanPriority : List Char → Option (List Char)
  | [] => none
  | c :: rest =>
    if ciIsPrefixOf "priority:".data (c :: rest) then
      let after := ((c :: rest).drop 9).dropWhile (isJsWs ·)
      if ciIsPrefixOf "high".data after then some (after.take 4)
      else if ciIsPrefixOf "medium".data after then some (after.take 6)
      else if ciIsPrefixOf "low".data after then some (after.take 3)
      else scanPriority rest
    else scanPriority rest

/-- Lazy capture `(.*?)` (with `/s`) up to the earliest stop label or the end
    of the string (the `$` alternative of the lookahead). -/
def captureUpTo (stops : List (List Char)) : List Char → List Char
  | [] => []
  | c :: rest => if stops.any (fun st => st.isPrefixOf (c :: rest)) then []
                 else c :: captureUpTo stops rest

/-- Suffix after the first (case-sensitive) occurrence of a label. -/
def findLabel (label : List Char) : List Char → Option (List Char)
  | [] => none
  | c :: rest =>
    if label.isPrefixOf (c :: rest) then some ((c :: rest).drop label.length)
    else findLabel label rest

/-- auditService.js:395-422 — extraction of a list-valued field: capture up to
    the next label, split on newlines, strip a leading bullet
    (`replace(/^-\s*/, '')` followed by `trim` equals dropping the dash and
    trimming), drop empty lines, cap the count. -/
def extractListField (label : String) (stops : List String) (maxCount : Nat)
    (text : List Char) : List String :=
  match findLabel label.data text with
  | none => []
  | some afterLabel =>
    let cap := captureUpTo (stops.map (·.data)) afterLabel
    let lines := jsSplitOn (String.mk cap) "\n"
    ((lines.map fun line =>
        jsTrim (if jsStartsWith line "-" then jsDrop line 1 else line)).filter
      (fun l => l ≠ "")).take maxCount

/-- auditService.js:454-460 — `_calculateEstimatedImpact` (`!score` is only
    true at 0, the scores being non-negative integers). -/
def calculateEstimatedImpact (score : Nat) (priority : String) : String :=
  if score = 0 then "Unknown"
  else if score < 50 && priority = "High" then "Very High"
  else if score < 60 && priority = "High" then "High"
  else if score < 70 && priority = "Medium" then "Medium"
  else "Low"

/-- auditService.js:376-441 — `_extractPageData`. Every operation in the
    source's `try` block is total, so its `catch` fallback is unreachable and
    has no counterpart here. The original page may be `undefined` when the
    response has more sections than the batch has records. -/
def extractPageData (analysisText : String) (originalPage : Option PageRecord) : PageAnalysis :=
  let url0 := jsOr (originalPage.bind (·.address)) (jsOr (originalPage.bind (·.url)) "Unknown")
  let title := jsOr (originalPage.bind (·.title)) "No title"
  let metaDescription := jsOr (originalPage.bind (·.metaDescription1)) "Missing"
  let t := analysisText.data
  let url := match scanUrl t with
    | some cap => jsTrim (String.mk cap)
    | none => url0
  let seoScore := match scanScore t with
    | some n => n
    | none => calculateBasicScore originalPage
  let issues := extractListField "CRITICAL ISSUES:" ["QUICK WINS:", "RECOMMENDATIONS:", "PRIORITY:"] 3 t
  let quickWins := extractListField "QUICK WINS:" ["RECOMMENDATIONS:", "PRIORITY:"] 2 t
  let recommendations := extractListField "RECOMMENDATIONS:" ["PRIORITY:"] 3 t
  let priority := match scanPriority t with
    | some cap => String.mk cap
    | none => "Medium"
  { url := url
    title := title
    metaDescription := metaDescription
    seoScore := seoScore
    issues := issues
    quickWins := quickWins
    recommendations := recommendations
    priority := priority
    estimatedImpact := calculateEstimatedImpact seoScore priority }

/-- auditService.js:347-374 — `_parsePageAnalysisResponse`: split on the
    `---` delimiter, drop blank sections, extract one record per section
    aligned by position, keep it when its `url` is truthy. The per-section
    `catch` and the outer `catch` guard exceptions that the (total)
    extraction cannot raise. -/
def parsePageAnalysisResponse (response : String) (originalBatch : List PageRecord) :
    List PageAnalysis :=
  let sections := (jsSplitOn response "---").filter (fun s => jsTrim s ≠ "")
  sections.enum.filterMap fun p =>
    let pageData := extractPageData p.2 originalBatch[p.1]?
    if pageData.url ≠ "" then some pageData else none

/-! ## auditService.js — response cleaning -/

/-- Keep printable ASCII plus newline, carriage return and tab
    (auditService.js:469, `[^\x20-\x7E\n\r\t]` removed). -/
def keepPrintable (c : Char) : Bool :=
  (0x20 ≤ c.toNat && c.toNat ≤ 0x7E) || c = '\n' || c = '\r' || c = '\t'

/-- `replace(/ {2,}/g, ' ')`: collapse every run of spaces to one space. -/
def collapseSpaceRuns : List Char → List Char
  | [] => []
  | ' ' :: rest => ' ' :: collapseSpaceRuns (rest.dropWhile (· == ' '))
  | c :: rest => c :: collapseSpaceRuns rest
termination_by l => l.length
decreasing_by
  all_goals simp only [List.length_cons]
  · have := (List.dropWhile_sublist (l := rest) (· == ' ')).length_le; omega
  · omega

/-- `replace(/\n{3,}/g, '\n\n')`: runs of three or more newlines become two. -/
def collapseNewlineRuns : List Char → List Char
  | [] => []
  | '\n' :: rest =>
    let run := rest.takeWhile (· == '\n')
    (if run.length + 1 ≥ 3 then ['\n', '\n'] else '\n' :: run) ++
      collapseNewlineRuns (rest.dropWhile (· == '\n'))
  | c :: rest => c :: collapseNewlineRuns rest
termination_by l => l.length
decreasing_by
  all_goals simp only [List.length_cons]
  · have := (List.dropWhile_sublist (l := rest) (· == '\n')).length_le; omega
  · omega

/-- auditService.js:462-477 — `_cleanAnalysisText`. The three asterisk
    replaces (`\*{2,}`, `\*\*`, `\*`) jointly delete every asterisk. -/
def cleanAnalysisText (text : String) : String :=
  if text = "" then ""
  else
    let s1 := text.data.filter (fun c => decide (c ≠ '*'))
    let s2 := s1.filter keepPrintable
    let s3 := collapseSpaceRuns s2
    let s4 := collapseNewlineRuns s3
    let lines := jsSplitOn (String.mk s4) "\n"
    jsTrim (jsIntercalate "\n" ((lines.map jsTrim).filter (fun l => l ≠ "")))

/-! ## auditService.js — retry wrapper -/

/-- Observable behaviour of one `_callOpenAIWithRetry` invocation: final
    result, the delays awaited between attempts (ms), and how many attempts
    were made. -/
structure RetryRun where
  result : Except String String
  delays : List Nat
  attemptsMade : Nat

/-- auditService.js:518-538 — the `for (attempt = 1; attempt <= retries)`
    loop from a given attempt number. `call k` is the outcome of the k-th
    attempt of the underlying OpenAI request. On failure before the last
    attempt the code awaits `this._delay(1000 * attempt)` and retries; on the
    last attempt it rethrows. -/
def retryAttempt (call : Nat → Except String String) (retries attempt : Nat) : RetryRun :=
  match call attempt with
  | .ok s => ⟨.ok s, [], 1⟩
  | .error e =>
    if attempt < retries then
      let rest := retryAttempt call retries (attempt + 1)
      ⟨rest.result, 1000 * attempt :: rest.delays, rest.attemptsMade + 1⟩
    else ⟨.error e, [], 1⟩
termination_by retries - attempt
decreasing_by omega

/-- auditService.js:517-539 — `_callOpenAIWithRetry`. For `retries = 0` the
    source's loop body never runs and the function returns `undefined`
    without making a call; every call site passes `retries = 2`. -/
def callOpenAIWithRetry (call : Nat → Except String String) (retries : Nat) : RetryRun :=
  if retries = 0 then ⟨.error "undefined", [], 0⟩
  else retryAttempt call retries 1

/-! ## auditService.js — batch dispatch

`Promise.all` issues every call of a window concurrently and resolves with
the results in positional order. The completion order is modelled by an
explicit schedule: a list of the window's indices in the order in which the
outstanding calls happen to finish. Each completion stores its result in its
own slot; after the whole window has settled the slots are read out
positionally. -/

/-- One window of concurrent calls under a completion schedule. -/
def runWindowSched {β γ : Type} (analyze : β → γ) (window : List β) (sched : List Nat) :
    List γ :=
  let slots : Nat → Option γ :=
    sched.foldl (fun m i => fun j => if j = i then (window[i]?).map analyze else m j)
      (fun _ => none)
  (List.range window.length).filterMap slots

/-- Windows processed strictly one after the other (the dispatcher awaits a
    whole window before starting the next). -/
def processScheduled {β γ : Type} (analyze : β → γ) (windows : List (List β))
    (scheds : List (List Nat)) : List γ :=
  (List.zipWith (runWindowSched analyze) windows scheds).flatten

/-- A schedule list is valid for a window list when they have the same length
    and each schedule is a permutation of the window's indices (every
    outstanding call completes exactly once). -/
def ValidScheds {β : Type} (windows : List (List β)) (scheds : List (List Nat)) : Prop :=
  List.Forall₂ (fun w sched => sched.Perm (List.range w.length)) windows scheds

/-- auditService.js:264-304 — `_analyzePageBatchOptimized`: call the model
    through the retry wrapper (retries = 2), clean and parse on success; the
    `catch` turns a batch whose retries are exhausted into the deterministic
    basic analysis of the batch's raw records. `call b k` is the outcome of
    the k-th attempt for batch `b`. -/
def analyzePageBatchOptimized (call : List PageRecord → Nat → Except String String)
    (batch : List PageRecord) : List PageAnalysis :=
  match (callOpenAIWithRetry (call batch) 2).result with
  | .ok response => parsePageAnalysisResponse (cleanAnalysisText response) batch
  | .error _ => generateBasicPageAnalysis batch

/-- auditService.js:339-345 — `_createPageBatches`: the same consecutive
    slicing loop as `chunkBySize`. -/
def createPageBatches {α : Type} (pageData : List α) (batchSize : Nat) : List (List α) :=
  chunkBySize pageData batchSize

/-- auditService.js:107-112 — batch size tuned to the data volume. -/
def pageBatchSize (n : Nat) : Nat :=
  if n > 200 then 12 else if n < 50 then 5 else 8

/-- auditService.js:128-163 — the batched, windowed (width 2) page dispatch
    of `analyzeIndividualPages`; the per-window results are pushed flat into
    `allPageAnalyses`. The window-level `catch` is unreachable because
    `_analyzePageBatchOptimized` never rejects. -/
def dispatchPageBatches (call : List PageRecord → Nat → Except String String)
    (batches : List (List PageRecord)) (scheds : List (List Nat)) : List (List PageAnalysis) :=
  processScheduled (analyzePageBatchOptimized call) (chunkBySize batches 2) scheds

/-- auditService.js:85-182 — `analyzeIndividualPages`: sites with more than
    1000 pages skip the model entirely and get `_generateBasicPageAnalysis`;
    otherwise the pages are batched and dispatched in windows of 2. -/
def analyzeIndividualPages (call : List PageRecord → Nat → Except String String)
    (pageData : List PageRecord) (scheds : List (List Nat)) : List PageAnalysis :=
  if pageData.length > 1000 then generateBasicPageAnalysis pageData
  else
    let batches := createPageBatches pageData (pageBatchSize pageData.length)
    (dispatchPageBatches call batches scheds).flatten

/-- One window of the chunk dispatcher: `_analyzeChunk` rejects when its
    retries are exhausted, `Promise.all` then rejects as soon as any member
    fails, and the `catch ... continue` drops the whole window's results
    (auditService.js:245-257). A window contributes its results, in
    positional order, only when every call succeeded. -/
def runWindowSchedExc {β γ : Type} (analyze : β → Except String γ) (window : List β)
    (sched : List Nat) : List γ :=
  let slots : Nat → Option γ :=
    sched.foldl (fun m i => fun j => if j = i then (window[i]?).bind (fun b => (analyze b).toOption) else m j)
      (fun _ => none)
  if (window.map analyze).all (fun r => r.toOption.isSome) then
    (List.range window.length).filterMap slots
  else []

/-- auditService.js:223-261 — `_processChunksOptimized`: windows of
    `concurrencyLimit = 3` (the same slicing as `chunkBySize`), processed
    sequentially; a window that rejects is skipped and the loop continues. -/
def processChunksOptimized {β γ : Type} (analyze : β → Except String γ) (chunks : List β)
    (scheds : List (List Nat)) : List γ :=
  (List.zipWith (runWindowSchedExc analyze) (chunkBySize chunks 3) scheds).flatten

/-! ## reportService.js — aggregation -/

/-- A per-page analysis as consumed by the report aggregation; the fields are
    duck-typed in the source, so each may be absent. -/
structure ReportPage where
  seoScore : Option Int := none
  priority : Option String := none
  issues : Option (List String) := none
  quickWins : Option (List String) := none
deriving DecidableEq

/-- JS `Math.round` (half-up, also for negative values). The aggregated
    score sums and counts are exact integers, so rational arithmetic models
    the source's floating-point average exactly for the list lengths the
    pipeline produces. -/
def jsRound (q : ℚ) : Int :=
  ⌊q + 1 / 2⌋

/-- The metrics record assembled by `_extractKeyMetrics`
    (reportService.js:416-455). -/
structure KeyMetrics where
  overallScore : Int
  totalPages : Nat
  prioritiesHigh : Nat
  prioritiesMedium : Nat
  prioritiesLow : Nat
  distExcellent : Nat
  distGood : Nat
  distFair : Nat
  distPoor : Nat
  distCritical : Nat
  criticalIssues : Nat
  quickWins : Nat
  highImpactPages : Nat
  rankingOpportunities : Int
  technicalHealth : Int
  contentQuality : Int
  confidenceLevel : Nat
deriving DecidableEq

/-- reportService.js:416-455 — `_extractKeyMetrics`. `rankingOpportunities`
    is `Math.round(length * 0.3)`; the binary floating literal 0.3 is modelled
    by the exact 3/10 (the value is a function of the length either way). -/
def extractKeyMetrics (perPageAnalysis : List ReportPage) : KeyMetrics :=
  let scores : List Int := perPageAnalysis.filterMap (·.seoScore)
  let overallScore : Int :=
    if scores.length > 0 then jsRound ((scores.sum : ℚ) / (scores.length : ℚ)) else 0
  { overallScore := overallScore
    totalPages := perPageAnalysis.length
    prioritiesHigh := (perPageAnalysis.filter (fun p => p.priority == some "High")).length
    prioritiesMedium := (perPageAnalysis.filter (fun p => p.priority == some "Medium")).length
    prioritiesLow := (perPageAnalysis.filter (fun p => p.priority == some "Low")).length
    distExcellent := (scores.filter (fun s => decide (90 ≤ s))).length
    distGood := (scores.filter (fun s => decide (80 ≤ s ∧ s < 90))).length
    distFair := (scores.filter (fun s => decide (70 ≤ s ∧ s < 80))).length
    distPoor := (scores.filter (fun s => decide (60 ≤ s ∧ s < 70))).length
    distCritical := (scores.filter (fun s => decide (s < 60))).length
    criticalIssues := (perPageAnalysis.map (fun p => (p.issues.getD []).length)).sum
    quickWins := (perPageAnalysis.map (fun p => (p.quickWins.getD []).length)).sum
    highImpactPages := (scores.filter (fun s => decide (s < 70))).length
    rankingOpportunities := jsRound ((perPageAnalysis.length : ℚ) * (3 / 10))
    technicalHealth := min 100 (overallScore + 10)
    contentQuality := max 50 (overallScore - 5)
    confidenceLevel := min 95 (70 + perPageAnalysis.length * 2) }

/-- reportService.js:501 — issue strings are case-normalised and trimmed
    before being counted. -/
def normalizeIssue (issue : String) : String :=
  jsTrim (jsToLower issue)

/-- reportService.js:495-505 — the issue-frequency table built by
    `_generateCriticalIssuesSummary`, as a function from normalised issue to
    its count. -/
def issueCount (perPageAnalysis : List ReportPage) (key : String) : Nat :=
  (perPageAnalysis.map
    (fun p => ((p.issues.getD []).filter (fun i => normalizeIssue i == key)).length)).sum

/-- A sequence of `estimateTokensFast` calls, threading the cache. -/
def runTokenEstimates (c : TokenCache) (texts : List String) : TokenCache :=
  texts.foldl (fun c t => (estimateTokensFast c t).2) c

/-- Every cache entry stores the estimate determined by its key: for any
    non-empty text with that key, the stored value is `Math.ceil(length/4)`.
    The fresh cache satisfies this vacuously, and `estimateTokensFast`
    preserves it. -/
def ValidCache (c : TokenCache) : Prop :=
  ∀ e ∈ c.entries, ∀ t : String, t ≠ "" → cacheKey t = e.1 → (t.length + 3) / 4 = e.2

/-- The contribution of one window of the chunk dispatcher: all results in
    positional order when every call of the window succeeded, nothing when
    any call rejected (the window-level catch skips the whole window). -/
def chunkWindowOutcome {β γ : Type} (analyze : β → Except String γ) (w : List β) : List γ :=
  if (w.map analyze).all (fun r => r.toOption.isSome) then
    w.filterMap (fun b => (analyze b).toOption)
  else []

/-- The number of non-blank delimiter-separated sections of a response. -/
def numSections (response : String) : Nat :=
  ((jsSplitOn response "---").filter (fun s => jsTrim s ≠ "")).length

/-! ## Proofs

The definitions compiled by well-founded recursion are unsealed so that
concrete witness computations reduce. -/

unseal chunkBySize

unseal retryAttempt

unseal splitOnCharsGo

/-! ## Chunking: structural lemmas -/

theorem chunkBySize_flatten_aux {α : Type} :
    ∀ (k : Nat) (rows : List α) (n : Nat), rows.length ≤ k → 0 < n →
      (chunkBySize rows n).flatten = rows := by
  intro k
  induction k with
  | zero =>
    intro rows n hlen _
    have hz : rows = [] := List.length_eq_zero.mp (Nat.le_zero.mp hlen)
    subst hz; rfl
  | succ k ih =>
    intro rows n hlen hn
    match rows, n with
    | [], _ => rfl
    | x :: xs, 0 => exact absurd hn (by omega)
    | x :: xs, m + 1 =>
      have hdrop : (xs.drop m).length ≤ k := by
        simp only [List.length_drop]
        simp only [List.length_cons] at hlen
        omega
      show ((x :: xs.take m) :: chunkBySize (xs.drop m) (m + 1)).flatten = x :: xs
      rw [List.flatten_cons, ih (xs.drop m) (m + 1) hdrop hn]
      simp [List.take_append_drop]

theorem chunkBySize_flatten {α : Type} (rows : List α) (n : Nat) (hn : 0 < n) :
    (chunkBySize rows n).flatten = rows :=
  chunkBySize_flatten_aux rows.length rows n le_rfl hn

theorem chunkBySize_ne_nil_aux {α : Type} :
    ∀ (k : Nat) (rows : List α) (n : Nat), rows.length ≤ k →
      ∀ c ∈ chunkBySize rows n, c ≠ [] := by
  intro k
  induction k with
  | zero =>
    intro rows n hlen
    have hz : rows = [] := List.length_eq_zero.mp (Nat.le_zero.mp hlen)
    subst hz; intro c hc; cases hc
  | succ k ih =>
    intro rows n hlen c hc
    cases rows with
    | nil => cases hc
    | cons x xs =>
      cases n with
      | zero => cases hc
      | succ m =>
        have hdrop : (xs.drop m).length ≤ k := by
          simp only [List.length_drop]
          simp only [List.length_cons] at hlen
          omega
        rw [show chunkBySize (x :: xs) (m + 1) =
              (x :: xs.take m) :: chunkBySize (xs.drop m) (m + 1) from rfl,
            List.mem_cons] at hc
        rcases hc with hc | hc
        · simp [hc]
        · exact ih (xs.drop m) (m + 1) hdrop c hc

theorem chunkBySize_ne_nil {α : Type} (rows : List α) (n : Nat) :
    ∀ c ∈ chunkBySize rows n, c ≠ [] :=
  chunkBySize_ne_nil_aux rows.length rows n le_rfl

theorem chunkFold_flatten (limit : Nat) :
    ∀ (rows : List PageRecord) (st : ChunkState),
      (rows.foldl (chunkStep limit) st).chunks.flatten ++
        (rows.foldl (chunkStep limit) st).currentChunk =
      st.chunks.flatten ++ st.currentChunk ++ rows := by
  intro rows
  induction rows with
  | nil => intro st; simp
  | cons r rows ih =>
    intro st
    rw [List.foldl_cons, ih (chunkStep limit st r)]
    unfold chunkStep
    dsimp only
    split
    · simp [List.flatten_append, List.append_assoc]
    · simp [List.append_assoc]

theorem chunkFold_ne_nil (limit : Nat) :
    ∀ (rows : List PageRecord) (st : ChunkState), (∀ c ∈ st.chunks, c ≠ []) →
      ∀ c ∈ (rows.foldl (chunkStep limit) st).chunks, c ≠ [] := by
  intro rows
  induction rows with
  | nil => intro st h; exact h
  | cons r rows ih =>
    intro st h
    rw [List.foldl_cons]
    refine ih (chunkStep limit st r) ?_
    unfold chunkStep
    dsimp only
    split
    · next hcond =>
      intro c hc
      rcases List.mem_append.mp hc with hc | hc
      · exact h c hc
      · have hne : st.currentChunk ≠ [] := by
          rcases Bool.and_eq_true .. |>.mp hcond with ⟨_, h2⟩
          simpa using h2
        rw [List.mem_singleton] at hc
        rw [hc]
        exact hne
    · exact h

theorem chunkByTokensFast_flatten (cache : TokenCache) (rows : List PageRecord) (limit : Nat) :
    (chunkByTokensFast cache rows limit).1.flatten = rows := by
  unfold chunkByTokensFast
  have h := chunkFold_flatten limit rows ⟨[], [], 0, cache⟩
  simp only [List.flatten_nil, List.nil_append] at h
  dsimp only
  split
  · next hemp =>
    rw [List.isEmpty_iff] at hemp
    rw [hemp, List.append_nil] at h
    exact h
  · rw [List.flatten_append]
    simpa using h

theorem chunkByTokensFast_ne_nil (cache : TokenCache) (rows : List PageRecord) (limit : Nat) :
    ∀ c ∈ (chunkByTokensFast cache rows limit).1, c ≠ [] := by
  unfold chunkByTokensFast
  intro c hc
  have hbase := chunkFold_ne_nil limit rows ⟨[], [], 0, cache⟩ (by intro c hc; cases hc)
  revert hc
  dsimp only
  split
  · intro hc; exact hbase c hc
  · next hemp =>
    intro hc
    rcases List.mem_append.mp hc with hc | hc
    · exact hbase c hc
    · have : c = (rows.foldl (chunkStep limit) ⟨[], [], 0, cache⟩).currentChunk := by
        simpa using hc
      rw [this]
      simpa [List.isEmpty_iff] using hemp

/-- C1: for both chunking strategies (fixed-size `chunkBySize`, token-bounded
    `chunkByTokensFast`) the concatenation of the returned batches equals the
    input sequence in order (no record duplicated or dropped), every returned
    batch is non-empty, and the empty input yields zero batches
    (`chunkBySize` under any positive chunk size, as passed by its callers). -/
theorem chunk_batches_partition_input {α : Type} (rows : List α) (pages : List PageRecord)
    (chunkSize tokenLimit : Nat) (cache : TokenCache) (hn : 0 < chunkSize) :
    (chunkBySize rows chunkSize).flatten = rows ∧
    (∀ c ∈ chunkBySize rows chunkSize, c ≠ []) ∧
    (chunkByTokensFast cache pages tokenLimit).1.flatten = pages ∧
    (∀ c ∈ (chunkByTokensFast cache pages tokenLimit).1, c ≠ []) ∧
    chunkBySize ([] : List α) chunkSize = [] ∧
    (chunkByTokensFast cache [] tokenLimit).1 = [] :=
  ⟨chunkBySize_flatten rows chunkSize hn, chunkBySize_ne_nil rows chunkSize,
   chunkByTokensFast_flatten cache pages tokenLimit, chunkByTokensFast_ne_nil cache pages tokenLimit,
   rfl, rfl⟩

/-- C1 witness: the partition properties evaluated on a concrete input with
    chunk size 25 (the source's default). -/
theorem chunk_batches_partition_input_witness :
    0 < 25 ∧
    ((chunkBySize [1, 2, 3] 25).flatten = [1, 2, 3] ∧
     (∀ c ∈ chunkBySize [1, 2, 3] 25, c ≠ []) ∧
     (chunkByTokensFast ⟨[], 0, 0⟩ [{ title := some "t" }, { url := some "u" }] 4).1.flatten =
       [{ title := some "t" }, { url := some "u" }] ∧
     (∀ c ∈ (chunkByTokensFast ⟨[], 0, 0⟩ [{ title := some "t" }, { url := some "u" }] 4).1, c ≠ []) ∧
     chunkBySize ([] : List Nat) 25 = [] ∧
     (chunkByTokensFast ⟨[], 0, 0⟩ [] 4).1 = []) :=
  ⟨by decide,
   chunk_batches_partition_input [1, 2, 3] [{ title := some "t" }, { url := some "u" }] 25 4
     ⟨[], 0, 0⟩ (by decide)⟩

/-! ## Token cache bound (C9) -/

theorem estimateTokensFast_entries_le (c : TokenCache) (t : String)
    (h : c.entries.length ≤ 2000) : (estimateTokensFast c t).2.entries.length ≤ 2000 := by
  unfold estimateTokensFast
  dsimp only
  split
  · exact h
  · split
    · exact h
    · dsimp only
      split
      · next hgt =>
        simp only [List.length_drop, List.length_append, List.length_cons,
          List.length_nil] at hgt ⊢
        omega
      · next hle =>
        simp only [gt_iff_lt, not_lt, List.length_append, List.length_cons,
          List.length_nil] at hle ⊢
        omega

/-- C9: the token-estimation cache is bounded: starting from any cache with
    at most 2000 entries (in particular the fresh one), after any sequence of
    `estimateTokensFast` calls — hence after every individual call of a run —
    the cache holds at most 2000 entries; an insertion that pushes the size
    above 2000 triggers eviction of the 500 oldest entries, as embedded in
    `estimateTokensFast`. -/
theorem token_cache_bounded (c : TokenCache) (texts : List String)
    (h : c.entries.length ≤ 2000) :
    (runTokenEstimates c texts).entries.length ≤ 2000 := by
  induction texts generalizing c with
  | nil => exact h
  | cons t ts ih =>
    exact ih (estimateTokensFast c t).2 (estimateTokensFast_entries_le c t h)

/-- C9 witness: a concrete run of estimates from the fresh cache. -/
theorem token_cache_bounded_witness :
    (⟨[], 0, 0⟩ : TokenCache).entries.length ≤ 2000 ∧
    (runTokenEstimates ⟨[], 0, 0⟩ ["alpha", "beta", "alpha"]).entries.length ≤ 2000 :=
  ⟨by decide, token_cache_bounded ⟨[], 0, 0⟩ ["alpha", "beta", "alpha"] (by decide)⟩

/-! ## The cache key determines the text length

`estimateTokensFast` keys its memo cache by `length + '_' + prefix`. Two
texts with the same key have the same length, so a cache hit returns exactly
the value `Math.ceil(length / 4)` that a fresh computation would produce.
This section proves that, starting from the decimal representation. -/

theorem toDigitsCore_eq_digits :
    ∀ (f n : Nat) (acc : List Char), n < f →
      Nat.toDigitsCore 10 f n acc =
        (if n = 0 then ['0'] else ((Nat.digits 10 n).map Nat.digitChar).reverse) ++ acc := by
  intro f
  induction f with
  | zero => intro n acc h; omega
  | succ f ih =>
    intro n acc h
    rw [show Nat.toDigitsCore 10 (f + 1) n acc =
          (if n / 10 = 0 then Nat.digitChar (n % 10) :: acc
           else Nat.toDigitsCore 10 f (n / 10) (Nat.digitChar (n % 10) :: acc)) from rfl]
    by_cases h0 : n = 0
    · subst h0
      norm_num
      rfl
    · have hpos : 0 < n := Nat.pos_of_ne_zero h0
      by_cases hdiv : n / 10 = 0
      · have hlt : n < 10 := by
          rcases Nat.lt_or_ge n 10 with hl | hge
          · exact hl
          · exact absurd hdiv (by have := Nat.div_le_div_right (c := 10) hge; simp at this; omega)
        rw [Nat.digits_def' (by norm_num : (1 : ℕ) < 10) hpos, hdiv, Nat.digits_zero]
        simp [hdiv, h0, Nat.mod_eq_of_lt hlt]
      · have hstep : n / 10 < f := by
          have h1 : n / 10 < n := Nat.div_lt_self hpos (by norm_num)
          have h2 : 10 ≤ n := by
            by_contra hnot
            exact hdiv (Nat.div_eq_of_lt (by omega))
          omega
        rw [ih (n / 10) _ hstep]
        simp only [hdiv, if_false]
        rw [Nat.digits_def' (by norm_num : (1 : ℕ) < 10) hpos]
        simp [h0, List.append_assoc]

theorem nat_repr_eq_digits (n : Nat) :
    Nat.repr n =
      String.mk (if n = 0 then ['0'] else ((Nat.digits 10 n).map Nat.digitChar).reverse) := by
  show (Nat.toDigits 10 n).asString = _
  rw [show Nat.toDigits 10 n = Nat.toDigitsCore 10 (n + 1) n [] from rfl,
    toDigitsCore_eq_digits (n + 1) n [] (by omega)]
  simp [List.asString]

theorem digitChar_inj_lt (a b : Nat) (ha : a < 10) (hb : b < 10)
    (h : Nat.digitChar a = Nat.digitChar b) : a = b := by
  interval_cases a <;> interval_cases b <;> revert h <;> decide

theorem digitChar_ne_underscore (d : Nat) (hd : d < 10) : Nat.digitChar d ≠ '_' := by
  interval_cases d <;> decide

theorem map_digitChar_inj :
    ∀ (l1 l2 : List Nat), (∀ x ∈ l1, x < 10) → (∀ x ∈ l2, x < 10) →
      l1.map Nat.digitChar = l2.map Nat.digitChar → l1 = l2 := by
  intro l1
  induction l1 with
  | nil =>
    intro l2 _ _ h
    cases l2 with
    | nil => rfl
    | cons b l2 => simp at h
  | cons a l1 ih =>
    intro l2 h1 h2 h
    cases l2 with
    | nil => simp at h
    | cons b l2 =>
      simp only [List.map_cons, List.cons.injEq] at h
      have hab : a = b :=
        digitChar_inj_lt a b (h1 a (List.mem_cons_self a l1)) (h2 b (List.mem_cons_self b l2)) h.1
      have htail := ih l2 (fun x hx => h1 x (List.mem_cons_of_mem a hx))
        (fun x hx => h2 x (List.mem_cons_of_mem b hx)) h.2
      rw [hab, htail]

theorem nat_repr_injective (m n : Nat) (h : Nat.repr m = Nat.repr n) : m = n := by
  rw [nat_repr_eq_digits, nat_repr_eq_digits] at h
  have hdata := congrArg String.data h
  simp only at hdata
  by_cases hm : m = 0 <;> by_cases hn : n = 0
  · omega
  · exfalso
    simp only [hm, if_true, hn, if_false] at hdata
    have hmap : (Nat.digits 10 n).map Nat.digitChar = ['0'] := by
      have := congrArg List.reverse hdata
      simpa using this.symm
    cases hd : Nat.digits 10 n with
    | nil => rw [hd] at hmap; simp at hmap
    | cons d l =>
      rw [hd] at hmap
      simp only [List.map_cons, List.cons.injEq, List.map_eq_nil_iff] at hmap
      have hd10 : d < 10 :=
        Nat.digits_lt_base (by norm_num) (hd ▸ List.mem_cons_self d l)
      have : d = 0 := digitChar_inj_lt d 0 hd10 (by norm_num) (by simpa using hmap.1)
      have hofd := Nat.ofDigits_digits 10 n
      rw [hd, hmap.2, this] at hofd
      simp [Nat.ofDigits] at hofd
      exact hn hofd.symm
  · exfalso
    simp only [hm, if_false, hn, if_true] at hdata
    have hmap : (Nat.digits 10 m).map Nat.digitChar = ['0'] := by
      have := congrArg List.reverse hdata
      simpa using this
    cases hd : Nat.digits 10 m with
    | nil => rw [hd] at hmap; simp at hmap
    | cons d l =>
      rw [hd] at hmap
      simp only [List.map_cons, List.cons.injEq, List.map_eq_nil_iff] at hmap
      have hd10 : d < 10 :=
        Nat.digits_lt_base (by norm_num) (hd ▸ List.mem_cons_self d l)
      have : d = 0 := digitChar_inj_lt d 0 hd10 (by norm_num) (by simpa using hmap.1)
      have hofd := Nat.ofDigits_digits 10 m
      rw [hd, hmap.2, this] at hofd
      simp [Nat.ofDigits] at hofd
      exact hm hofd.symm
  · simp only [hm, if_false, hn, if_false] at hdata
    have hrev := congrArg List.reverse hdata
    simp only [List.reverse_reverse] at hrev
    have hdig := map_digitChar_inj (Nat.digits 10 m) (Nat.digits 10 n)
      (fun x hx => Nat.digits_lt_base (by norm_num) hx)
      (fun x hx => Nat.digits_lt_base (by norm_num) hx) hrev
    exact Nat.digits_inj_iff.mp hdig

theorem underscore_not_mem_repr (n : Nat) : '_' ∉ (Nat.repr n).data := by
  rw [nat_repr_eq_digits]
  by_cases h0 : n = 0
  · simp [h0]
  · simp only [h0, if_false]
    intro hmem
    rw [List.mem_reverse] at hmem
    rcases List.mem_map.mp hmem with ⟨d, hd, hEq⟩
    exact digitChar_ne_underscore d (Nat.digits_lt_base (by norm_num) hd) hEq

theorem str_data_append (s t : String) : (s ++ t).data = s.data ++ t.data := by
  cases s; cases t; rfl

theorem append_cons_underscore_inj :
    ∀ (as bs xs ys : List Char), '_' ∉ as → '_' ∉ bs →
      as ++ '_' :: xs = bs ++ '_' :: ys → as = bs ∧ xs = ys := by
  intro as
  induction as with
  | nil =>
    intro bs xs ys _ hb h
    cases bs with
    | nil => simpa using h
    | cons b bs =>
      exfalso
      simp only [List.nil_append, List.cons_append, List.cons.injEq] at h
      exact hb (h.1 ▸ List.mem_cons_self b bs)
  | cons a as ih =>
    intro bs xs ys ha hb h
    cases bs with
    | nil =>
      exfalso
      simp only [List.cons_append, List.nil_append, List.cons.injEq] at h
      exact ha (h.1 ▸ List.mem_cons_self a as)
    | cons b bs =>
      simp only [List.cons_append, List.cons.injEq] at h
      have hrest := ih bs xs ys (fun hm => ha (List.mem_cons_of_mem a hm))
        (fun hm => hb (List.mem_cons_of_mem b hm)) h.2
      exact ⟨by rw [h.1, hrest.1], hrest.2⟩

/-- Two texts with the same cache key have the same length. -/
theorem cacheKey_determines_length (t1 t2 : String) (h : cacheKey t1 = cacheKey t2) :
    t1.length = t2.length := by
  unfold cacheKey at h
  have hdata := congrArg String.data h
  rw [str_data_append, str_data_append, str_data_append, str_data_append] at hdata
  simp only [List.append_assoc, List.singleton_append] at hdata
  have hsplit := append_cons_underscore_inj _ _ _ _
    (underscore_not_mem_repr t1.length) (underscore_not_mem_repr t2.length) hdata
  have hinj := hsplit.1
  refine nat_repr_injective _ _ ?_
  cases hq1 : Nat.repr t1.length with
  | mk d1 =>
    cases hq2 : Nat.repr t2.length with
    | mk d2 =>
      rw [hq1, hq2] at hinj
      dsimp only at hinj
      rw [hinj]

/-! ## Cache transparency and the oversized-record theorem (C7) -/

theorem lookup_mem_pair {β : Type} :
    ∀ (l : List (String × β)) (k : String) (v : β), l.lookup k = some v → (k, v) ∈ l := by
  intro l
  induction l with
  | nil => intro k v h; simp [List.lookup] at h
  | cons e l ih =>
    intro k v h
    obtain ⟨k2, v2⟩ := e
    simp only [List.lookup] at h
    split at h
    · next heq =>
      have hk : k = k2 := by simpa using heq
      have hv : v2 = v := by simpa using h
      rw [hk, ← hv]
      exact List.mem_cons_self _ _
    · exact List.mem_cons_of_mem _ (ih k v h)

/-- On a valid cache, `estimateTokensFast` returns the pure estimate. -/
theorem estimateTokensFast_fst (c : TokenCache) (t : String) (hv : ValidCache c) :
    (estimateTokensFast c t).1 = estimateTokensPure t := by
  unfold estimateTokensFast estimateTokensPure
  dsimp only
  split
  · rfl
  · next ht =>
    cases hl : c.entries.lookup (cacheKey t) with
    | none => simp [hl]
    | some v =>
      simp only [hl]
      exact (hv (cacheKey t, v) (lookup_mem_pair c.entries _ v hl) t ht rfl).symm

theorem estimateTokensFast_valid (c : TokenCache) (t : String) (hv : ValidCache c) :
    ValidCache (estimateTokensFast c t).2 := by
  unfold estimateTokensFast
  dsimp only
  split
  · exact hv
  · next ht =>
    cases hl : c.entries.lookup (cacheKey t) with
    | some v => simpa [hl] using hv
    | none =>
      simp only [hl]
      intro e he u hu hk
      have hmem : e ∈ c.entries ++ [(cacheKey t, (t.length + 3) / 4)] := by
        revert he
        dsimp only
        split
        · exact fun he => List.mem_of_mem_drop he
        · exact id
      rcases List.mem_append.mp hmem with hmem | hmem
      · exact hv e hmem u hu hk
      · have he : e = (cacheKey t, (t.length + 3) / 4) := by simpa using hmem
        rw [he]
        rw [he] at hk
        rw [cacheKey_determines_length u t hk]

/-- The fresh cache is valid. -/
theorem validCache_empty : ValidCache ⟨[], 0, 0⟩ := by
  intro e he
  cases he

theorem chunkStep_valid (limit : Nat) (st : ChunkState) (row : PageRecord)
    (hv : ValidCache st.cache) : ValidCache (chunkStep limit st row).cache := by
  unfold chunkStep
  dsimp only
  split
  · exact estimateTokensFast_valid _ _ hv
  · exact estimateTokensFast_valid _ _ hv

theorem chunkStep_chunks_mono (limit : Nat) (st : ChunkState) (row : PageRecord)
    (c : List PageRecord) (hc : c ∈ st.chunks) : c ∈ (chunkStep limit st row).chunks := by
  unfold chunkStep
  dsimp only
  split
  · exact List.mem_append_left _ hc
  · exact hc

theorem foldl_chunkStep_chunks_mono (limit : Nat) :
    ∀ (rows : List PageRecord) (st : ChunkState) (c : List PageRecord),
      c ∈ st.chunks → c ∈ (rows.foldl (chunkStep limit) st).chunks := by
  intro rows
  induction rows with
  | nil => intro st c hc; exact hc
  | cons r rows ih =>
    intro st c hc
    rw [List.foldl_cons]
    exact ih (chunkStep limit st r) c (chunkStep_chunks_mono limit st r c hc)

/-- Once the current chunk is exactly the oversized record, the rest of the
    fold puts it into the output as a singleton batch. -/
theorem oversized_current_stays (limit : Nat) (r : PageRecord) :
    ∀ (rows : List PageRecord) (st : ChunkState),
      st.currentChunk = [r] → st.tokenCount > limit →
      [r] ∈ (let stf := rows.foldl (chunkStep limit) st
             if stf.currentChunk.isEmpty then stf.chunks else stf.chunks ++ [stf.currentChunk]) := by
  intro rows
  induction rows with
  | nil =>
    intro st hcur _
    simp only [List.foldl_nil, hcur]
    simp
  | cons row rows ih =>
    intro st hcur htok
    rw [List.foldl_cons]
    have hstep : (chunkStep limit st row).chunks = st.chunks ++ [[r]] := by
      unfold chunkStep
      dsimp only
      rw [if_pos]
      · rw [hcur]
      · refine Bool.and_eq_true .. |>.mpr ⟨?_, ?_⟩
        · exact decide_eq_true (by omega)
        · rw [hcur]; rfl
    have hin : [r] ∈ (rows.foldl (chunkStep limit) (chunkStep limit st row)).chunks := by
      refine foldl_chunkStep_chunks_mono limit rows _ [r] ?_
      rw [hstep]
      simp
    dsimp only
    split
    · exact hin
    · exact List.mem_append_left _ hin

/-- C7: a record whose own estimated token count exceeds the token limit ends
    up, by the (always terminating) token-bounded chunking, in its own
    one-record batch: `[r]` is one of the returned batches whenever the
    estimate of the serialised record exceeds the limit and the starting
    cache is consistent (as the fresh cache is). -/
theorem oversized_record_singleton_batch (cache : TokenCache) (rows : List PageRecord)
    (limit : Nat) (r : PageRecord) (hv : ValidCache cache) (hr : r ∈ rows)
    (hbig : estimateTokensPure (createOptimizedRowString r) > limit) :
    [r] ∈ (chunkByTokensFast cache rows limit).1 := by
  rcases List.append_of_mem hr with ⟨pre, post, rfl⟩
  unfold chunkByTokensFast
  rw [List.foldl_append, List.foldl_cons]
  have hvpre : ValidCache ((pre.foldl (chunkStep limit) ⟨[], [], 0, cache⟩).cache) := by
    clear hr hbig
    induction pre generalizing cache with
    | nil => exact hv
    | cons p pre ih =>
      rw [List.foldl_cons]
      have h1 : ValidCache (chunkStep limit ⟨[], [], 0, cache⟩ p).cache :=
        chunkStep_valid limit _ p hv
      clear ih
      generalize (chunkStep limit ⟨[], [], 0, cache⟩ p) = st1 at h1 ⊢
      clear hv
      induction pre generalizing st1 with
      | nil => exact h1
      | cons q pre ih2 =>
        rw [List.foldl_cons]
        exact ih2 (chunkStep limit st1 q) (chunkStep_valid limit st1 q h1)
  set st1 := pre.foldl (chunkStep limit) ⟨[], [], 0, cache⟩ with hst1
  have hest : (estimateTokensFast st1.cache (createOptimizedRowString r)).1 =
      estimateTokensPure (createOptimizedRowString r) :=
    estimateTokensFast_fst _ _ hvpre
  have hstep : (chunkStep limit st1 r).currentChunk = [r] ∧
      (chunkStep limit st1 r).tokenCount > limit := by
    unfold chunkStep
    dsimp only
    rw [hest]
    split
    · exact ⟨rfl, by dsimp only; omega⟩
    · next hcond =>
      have hsum : st1.tokenCount + estimateTokensPure (createOptimizedRowString r) > limit := by
        omega
      have hemp : st1.currentChunk.isEmpty = true := by
        by_contra hne
        apply hcond
        rw [Bool.and_eq_true]
        exact ⟨decide_eq_true hsum, by simpa using hne⟩
      refine ⟨?_, by dsimp only; omega⟩
      rw [List.isEmpty_iff.mp hemp]
      rfl
  exact oversized_current_stays limit r post (chunkStep limit st1 r) hstep.1 hstep.2

/-- C7 witness: a record serialising to 8 characters (estimate 2) against
    token limit 1 becomes its own singleton batch. -/
theorem oversized_record_singleton_batch_witness :
    estimateTokensPure (createOptimizedRowString { title := some "abcdefgh" }) > 1 ∧
    [({ title := some "abcdefgh" } : PageRecord)] ∈
      (chunkByTokensFast ⟨[], 0, 0⟩ [{ title := some "abcdefgh" }] 1).1 :=
  ⟨by decide,
   oversized_record_singleton_batch ⟨[], 0, 0⟩ [{ title := some "abcdefgh" }] 1
     { title := some "abcdefgh" } validCache_empty (by decide) (by decide)⟩

/-! ## Retry backoff (C3) -/

theorem retryAttempt_fail_spec (call : Nat → Except String String)
    (hfail : ∀ k a, call k ≠ Except.ok a) :
    ∀ (n retries attempt : Nat), retries - attempt = n → attempt ≤ retries →
      (retryAttempt call retries attempt).delays =
        (List.range' attempt n).map (fun k => 1000 * k) ∧
      (retryAttempt call retries attempt).attemptsMade = n + 1 ∧
      ∃ e, (retryAttempt call retries attempt).result = Except.error e := by
  intro n
  induction n with
  | zero =>
    intro retries attempt hn _
    unfold retryAttempt
    cases hc : call attempt with
    | ok s => exact absurd hc (hfail attempt s)
    | error e =>
      have hnlt : ¬ attempt < retries := by omega
      simp [hnlt]
  | succ n ih =>
    intro retries attempt hn hle
    have hlt : attempt < retries := by omega
    unfold retryAttempt
    cases hc : call attempt with
    | ok s => exact absurd hc (hfail attempt s)
    | error e =>
      obtain ⟨hd, ha, e2, hr⟩ := ih retries (attempt + 1) (by omega) (by omega)
      simp only [hlt, if_pos]
      refine ⟨?_, ?_, ?_⟩
      · rw [List.range'_succ, List.map_cons]
        exact congrArg (1000 * attempt :: ·) hd
      · simpa using ha
      · exact ⟨e2, hr⟩

theorem retryAttempt_attempts_le (call : Nat → Except String String) :
    ∀ (n retries attempt : Nat), retries - attempt = n →
      (retryAttempt call retries attempt).attemptsMade ≤ n + 1 := by
  intro n
  induction n with
  | zero =>
    intro retries attempt hn
    unfold retryAttempt
    cases call attempt with
    | ok s => exact le_rfl
    | error e =>
      have hnlt : ¬ attempt < retries := by omega
      simp [hnlt]
  | succ n ih =>
    intro retries attempt hn
    unfold retryAttempt
    cases call attempt with
    | ok s => dsimp only; omega
    | error e =>
      dsimp only
      split
      · have := ih retries (attempt + 1) (by omega)
        dsimp only
        omega
      · dsimp only
        omega

/-- C3 (amended): the retry wrapper makes up to `retries` attempts, and for a
    call that fails every attempt the awaited delays are 1000·k ms after the
    k-th failed attempt — linear backoff with no upper cap — and the wrapper
    finally rethrows the error. -/
theorem retry_linear_backoff (call : Nat → Except String String) (retries : Nat)
    (hpos : 0 < retries) (hfail : ∀ k a, call k ≠ Except.ok a) :
    (callOpenAIWithRetry call retries).delays =
      (List.range' 1 (retries - 1)).map (fun k => 1000 * k) ∧
    (callOpenAIWithRetry call retries).attemptsMade = retries ∧
    (∃ e, (callOpenAIWithRetry call retries).result = Except.error e) ∧
    ∀ call2 : Nat → Except String String,
      (callOpenAIWithRetry call2 retries).attemptsMade ≤ retries := by
  have hr : retries ≠ 0 := by omega
  obtain ⟨hd, ha, he⟩ :=
    retryAttempt_fail_spec call hfail (retries - 1) retries 1 (by omega) (by omega)
  refine ⟨?_, ?_, ?_, ?_⟩
  · rw [callOpenAIWithRetry, if_neg hr]
    exact hd
  · rw [callOpenAIWithRetry, if_neg hr, ha]
    omega
  · rw [callOpenAIWithRetry, if_neg hr]
    exact he
  · intro call2
    rw [callOpenAIWithRetry, if_neg hr]
    have := retryAttempt_attempts_le call2 (retries - 1) retries 1 (by omega)
    omega

/-- C3 witness: three always-failing attempts produce the delays
    1000 ms and 2000 ms, make 3 attempts, and rethrow. -/
theorem retry_linear_backoff_witness :
    0 < 3 ∧
    ((callOpenAIWithRetry (fun _ => Except.error "x") 3).delays =
      (List.range' 1 (3 - 1)).map (fun k => 1000 * k) ∧
    (callOpenAIWithRetry (fun _ => Except.error "x") 3).attemptsMade = 3 ∧
    (∃ e, (callOpenAIWithRetry (fun _ => Except.error "x") 3).result = Except.error e) ∧
    ∀ call2 : Nat → Except String String,
      (callOpenAIWithRetry call2 3).attemptsMade ≤ 3) :=
  ⟨by decide,
   retry_linear_backoff (fun _ => Except.error "x") 3 (by decide)
     (fun _ a h => Except.noConfusion h)⟩

/-- C3 counterexample: the delays of an always-failing run with 5 attempts
    are 1000, 2000, 3000, 4000 ms — not of the form
    `min (base * multiplier^(k-1)) cap` for any base, multiplier and cap, so
    the backoff is not exponential-with-cap as claimed. -/
theorem retry_backoff_not_exponential_capped :
    (callOpenAIWithRetry (fun _ => Except.error "boom") 5).delays = [1000, 2000, 3000, 4000] ∧
    ¬ ∃ b m C : ℚ, ∀ k, k < 4 →
        (((callOpenAIWithRetry (fun _ => Except.error "boom") 5).delays.getD k 0 : ℚ) =
          min (b * m ^ k) C) := by
  have hdel : (callOpenAIWithRetry (fun _ => Except.error "boom") 5).delays =
      [1000, 2000, 3000, 4000] := by decide
  refine ⟨hdel, ?_⟩
  rintro ⟨b, m, C, hk⟩
  have h0 := hk 0 (by norm_num)
  have h1 := hk 1 (by norm_num)
  have h2 := hk 2 (by norm_num)
  have h3 := hk 3 (by norm_num)
  rw [hdel] at h0 h1 h2 h3
  norm_num [List.getD] at h0 h1 h2 h3
  have hC : (4000 : ℚ) ≤ C := h3 ▸ min_le_right (b * m ^ 3) C
  have hb : b = 1000 := by
    rcases min_cases b C with ⟨he, _⟩ | ⟨he, _⟩
    · rw [he] at h0; linarith
    · rw [he] at h0; linarith
  have hm : m = 2 := by
    rcases min_cases (b * m) C with ⟨he, _⟩ | ⟨he, _⟩
    · rw [he] at h1
      rw [hb] at h1
      linarith
    · rw [he] at h1; linarith
  have hval : b * m ^ 2 = 4000 := by
    rw [hb, hm]; norm_num
  rw [hval, min_eq_left hC] at h2
  linarith

/-! ## Dispatch windows: positional collection (C5, C2, C10) -/

theorem slots_foldl_fn {γ : Type} (val : Nat → Option γ) (sched : List Nat) :
    ∀ (m : Nat → Option γ),
      (sched.foldl (fun m i => fun j => if j = i then val i else m j) m) =
        fun j => if j ∈ sched then val j else m j := by
  induction sched with
  | nil => intro m; funext j; simp
  | cons i sched ih =>
    intro m
    rw [List.foldl_cons, ih]
    funext j
    by_cases hj : j ∈ sched
    · simp [hj]
    · by_cases hji : j = i
      · subst hji; simp [hj]
      · simp [hj, hji]

theorem range_filterMap_eq_filterMap {β γ : Type} (f : β → Option γ) :
    ∀ (window : List β) (slots : Nat → Option γ),
      (∀ j, (hj : j < window.length) → slots j = f window[j]) →
      (List.range window.length).filterMap slots = window.filterMap f := by
  intro window
  induction window using List.reverseRecOn with
  | nil => intro slots _; simp
  | append_singleton ws w ih =>
    intro slots hslot
    rw [show (ws ++ [w]).length = ws.length + 1 by simp]
    rw [List.range_succ, List.filterMap_append, List.filterMap_append]
    congr 1
    · apply ih
      intro j hj
      rw [hslot j (by simp only [List.length_append, List.length_cons, List.length_nil]; omega)]
      congr 1
      exact (List.getElem_append_left' [w] hj).symm
    · have hlast := hslot ws.length (by simp)
      rw [List.getElem_concat_length ws w ws.length rfl] at hlast
      simp only [List.filterMap_cons, List.filterMap_nil]
      rw [hlast]

theorem runWindowSched_eq_map {β γ : Type} (analyze : β → γ) (window : List β)
    (sched : List Nat) (hs : sched.Perm (List.range window.length)) :
    runWindowSched analyze window sched = window.map analyze := by
  unfold runWindowSched
  dsimp only
  rw [slots_foldl_fn (fun i => (window[i]?).map analyze) sched]
  rw [range_filterMap_eq_filterMap (fun b => some (analyze b)) window _ ?_]
  · rw [show (fun b => some (analyze b)) = some ∘ analyze from rfl, List.filterMap_eq_map]
  · intro j hj
    have hjmem : j ∈ sched := by rw [hs.mem_iff, List.mem_range]; exact hj
    simp [hjmem, List.getElem?_eq_getElem hj]

theorem runWindowSchedExc_eq {β γ : Type} (analyze : β → Except String γ) (window : List β)
    (sched : List Nat) (hs : sched.Perm (List.range window.length)) :
    runWindowSchedExc analyze window sched = chunkWindowOutcome analyze window := by
  unfold runWindowSchedExc chunkWindowOutcome
  dsimp only
  rw [slots_foldl_fn (fun i => (window[i]?).bind (fun b => (analyze b).toOption)) sched]
  split
  · rw [range_filterMap_eq_filterMap (fun b => (analyze b).toOption) window _ ?_]
    intro j hj
    have hjmem : j ∈ sched := by rw [hs.mem_iff, List.mem_range]; exact hj
    simp [hjmem, List.getElem?_eq_getElem hj]
  · rfl

theorem processScheduled_eq_map {β γ : Type} (analyze : β → γ) :
    ∀ (windows : List (List β)) (scheds : List (List Nat)),
      ValidScheds windows scheds →
      processScheduled analyze windows scheds = (windows.flatten).map analyze := by
  intro windows scheds hv
  induction hv with
  | nil => rfl
  | cons hws hrest ih =>
    unfold processScheduled at ih ⊢
    rename_i w sched ws scheds2
    rw [List.zipWith_cons_cons, List.flatten_cons, List.flatten_cons, List.map_append,
      runWindowSched_eq_map _ _ _ hws, ih]

theorem processScheduledExc_eq {β γ : Type} (analyze : β → Except String γ) :
    ∀ (windows : List (List β)) (scheds : List (List Nat)),
      ValidScheds windows scheds →
      (List.zipWith (runWindowSchedExc analyze) windows scheds).flatten =
        (windows.map (chunkWindowOutcome analyze)).flatten := by
  intro windows scheds hv
  induction hv with
  | nil => rfl
  | cons hws hrest ih =>
    rename_i w sched ws scheds2
    rw [List.zipWith_cons_cons, List.map_cons, List.flatten_cons, List.flatten_cons,
      runWindowSchedExc_eq _ _ _ hws, ih]

theorem chunkWindowOutcome_sublist {β γ : Type} (analyze : β → Except String γ) (w : List β) :
    (chunkWindowOutcome analyze w).Sublist (w.filterMap (fun b => (analyze b).toOption)) := by
  unfold chunkWindowOutcome
  split
  · exact List.Sublist.refl _
  · exact List.nil_sublist _

theorem flatten_sublist_flatten {γ : Type} :
    ∀ (l1 l2 : List (List γ)), List.Forall₂ List.Sublist l1 l2 →
      l1.flatten.Sublist l2.flatten := by
  intro l1 l2 h
  induction h with
  | nil => exact List.Sublist.refl _
  | cons hab hrest ih =>
    rw [List.flatten_cons, List.flatten_cons]
    exact List.Sublist.append hab ih

/-- C5: the dispatcher outputs outcomes in input-batch order regardless of
    the completion order within each concurrency window. For the page
    dispatcher (windows of 2, total per-batch calls) the outcome list is
    exactly the input batches mapped positionally; for the chunk dispatcher
    (windows of 3, calls that may reject) the outcome list is the same for
    every valid completion schedule and is an in-order subsequence of the
    per-chunk results. -/
theorem dispatcher_output_in_input_order {β γ : Type}
    (call : List PageRecord → Nat → Except String String)
    (batches : List (List PageRecord)) (scheds₂ : List (List Nat))
    (analyze : β → Except String γ) (chunks : List β) (scheds₃ : List (List Nat))
    (hv2 : ValidScheds (chunkBySize batches 2) scheds₂)
    (hv3 : ValidScheds (chunkBySize chunks 3) scheds₃) :
    dispatchPageBatches call batches scheds₂ = batches.map (analyzePageBatchOptimized call) ∧
    processChunksOptimized analyze chunks scheds₃ =
      ((chunkBySize chunks 3).map (chunkWindowOutcome analyze)).flatten ∧
    (processChunksOptimized analyze chunks scheds₃).Sublist
      (chunks.filterMap (fun c => (analyze c).toOption)) := by
  have h2 : dispatchPageBatches call batches scheds₂ =
      batches.map (analyzePageBatchOptimized call) := by
    unfold dispatchPageBatches
    rw [processScheduled_eq_map _ _ _ hv2, chunkBySize_flatten batches 2 (by omega)]
  have h3 : processChunksOptimized analyze chunks scheds₃ =
      ((chunkBySize chunks 3).map (chunkWindowOutcome analyze)).flatten := by
    unfold processChunksOptimized
    exact processScheduledExc_eq analyze _ _ hv3
  refine ⟨h2, h3, ?_⟩
  rw [h3]
  have hfm : chunks.filterMap (fun c => (analyze c).toOption) =
      ((chunkBySize chunks 3).map
        (fun w => w.filterMap (fun c => (analyze c).toOption))).flatten := by
    conv_lhs => rw [← chunkBySize_flatten chunks 3 (by omega)]
    rw [List.filterMap_flatten]
  rw [hfm]
  apply flatten_sublist_flatten
  induction chunkBySize chunks 3 with
  | nil => exact List.Forall₂.nil
  | cons w ws ih =>
    exact List.Forall₂.cons (chunkWindowOutcome_sublist analyze w) ih

/-- C5 witness: three page batches dispatched under reversed completion
    order within each window, and four chunks (one always failing) under a
    rotated schedule. -/
theorem dispatcher_output_in_input_order_witness :
    ValidScheds (chunkBySize [[({} : PageRecord)], [{}], [{}]] 2) [[1, 0], [0]] ∧
    ValidScheds (chunkBySize [1, 2, 3, 4] 3) [[2, 0, 1], [0]] ∧
    (dispatchPageBatches (fun _ _ => Except.ok "resp") [[({} : PageRecord)], [{}], [{}]]
        [[1, 0], [0]] =
      [[({} : PageRecord)], [{}], [{}]].map
        (analyzePageBatchOptimized (fun _ _ => Except.ok "resp")) ∧
    processChunksOptimized (fun n => if n = 2 then Except.error "x" else Except.ok n)
        [1, 2, 3, 4] [[2, 0, 1], [0]] =
      ((chunkBySize [1, 2, 3, 4] 3).map
        (chunkWindowOutcome (fun n => if n = 2 then Except.error "x" else Except.ok n))).flatten ∧
    (processChunksOptimized (fun n => if n = 2 then Except.error "x" else Except.ok n)
        [1, 2, 3, 4] [[2, 0, 1], [0]]).Sublist
      ([1, 2, 3, 4].filterMap
        (fun c => ((if c = 2 then Except.error "x" else Except.ok c) :
          Except String Nat).toOption))) :=
  ⟨by unfold ValidScheds
      exact List.Forall₂.cons (by decide) (List.Forall₂.cons (by decide) List.Forall₂.nil),
   by unfold ValidScheds
      exact List.Forall₂.cons (by decide) (List.Forall₂.cons (by decide) List.Forall₂.nil),
   dispatcher_output_in_input_order (fun _ _ => Except.ok "resp")
     [[({} : PageRecord)], [{}], [{}]] [[1, 0], [0]]
     (fun n => if n = 2 then Except.error "x" else Except.ok n) [1, 2, 3, 4] [[2, 0, 1], [0]]
     (by unfold ValidScheds
         exact List.Forall₂.cons (by decide) (List.Forall₂.cons (by decide) List.Forall₂.nil))
     (by unfold ValidScheds
         exact List.Forall₂.cons (by decide) (List.Forall₂.cons (by decide) List.Forall₂.nil))⟩

/-- A batch whose every attempt fails is turned into the deterministic basic
    analysis by the catch in `_analyzePageBatchOptimized`. -/
theorem analyzePageBatchOptimized_fail (call : List PageRecord → Nat → Except String String)
    (b : List PageRecord) (hfail : ∀ k a, call b k ≠ Except.ok a) :
    analyzePageBatchOptimized call b = generateBasicPageAnalysis b := by
  unfold analyzePageBatchOptimized callOpenAIWithRetry
  obtain ⟨hd, ha, e, he⟩ := retryAttempt_fail_spec (call b) hfail 1 2 1 (by omega) (by omega)
  norm_num
  rw [he]

/-- C2: a batch whose analysis call fails on every retry attempt does not
    abort the run and its outcome is not dropped: the dispatcher still
    returns one outcome per input batch, the failing batch's outcome is the
    deterministic rule-based fallback (`_generateBasicPageAnalysis`) over the
    batch's raw records, and every other batch (in particular every later
    batch) is still processed. -/
theorem failed_batch_degraded_and_rest_processed
    (call : List PageRecord → Nat → Except String String)
    (batches : List (List PageRecord)) (scheds : List (List Nat)) (i : Nat)
    (hi : i < batches.length)
    (hv : ValidScheds (chunkBySize batches 2) scheds)
    (hfail : ∀ k a, call batches[i] k ≠ Except.ok a) :
    (dispatchPageBatches call batches scheds).length = batches.length ∧
    (dispatchPageBatches call batches scheds)[i]? =
      some (generateBasicPageAnalysis batches[i]) ∧
    ∀ j, (hj : j < batches.length) →
      (dispatchPageBatches call batches scheds)[j]? =
        some (analyzePageBatchOptimized call batches[j]) := by
  have hmain : dispatchPageBatches call batches scheds =
      batches.map (analyzePageBatchOptimized call) := by
    unfold dispatchPageBatches
    rw [processScheduled_eq_map _ _ _ hv, chunkBySize_flatten batches 2 (by omega)]
  refine ⟨by rw [hmain]; simp, ?_, ?_⟩
  · rw [hmain, List.getElem?_map, List.getElem?_eq_getElem hi]
    simp only [Option.map_some']
    rw [analyzePageBatchOptimized_fail call batches[i] hfail]
  · intro j hj
    rw [hmain, List.getElem?_map, List.getElem?_eq_getElem hj]
    rfl

/-- C2 witness: two singleton batches, every call failing; both fall back to
    the deterministic analysis and both are present in order. -/
theorem failed_batch_degraded_witness :
    0 < ([[({} : PageRecord)], [{}]] : List (List PageRecord)).length ∧
    ((dispatchPageBatches (fun _ _ => Except.error "down") [[({} : PageRecord)], [{}]]
        [[1, 0]]).length = 2 ∧
    (dispatchPageBatches (fun _ _ => Except.error "down") [[({} : PageRecord)], [{}]]
        [[1, 0]])[0]? = some (generateBasicPageAnalysis [({} : PageRecord)]) ∧
    ∀ j, (hj : j < ([[({} : PageRecord)], [{}]] : List (List PageRecord)).length) →
      (dispatchPageBatches (fun _ _ => Except.error "down") [[({} : PageRecord)], [{}]]
          [[1, 0]])[j]? =
        some (analyzePageBatchOptimized (fun _ _ => Except.error "down")
          ([[({} : PageRecord)], [{}]] : List (List PageRecord))[j])) := by
  constructor
  · decide
  · have := failed_batch_degraded_and_rest_processed (fun _ _ => Except.error "down")
      [[({} : PageRecord)], [{}]] [[1, 0]] 0 (by decide)
      (by unfold ValidScheds
          exact List.Forall₂.cons (by decide) List.Forall₂.nil)
      (fun _ a h => Except.noConfusion h)
    simpa using this

/-- C10: for a site with more than 1000 page records,
    `analyzeIndividualPages` performs no model call at all (the result is the
    same for every call function) and returns the deterministic basic
    analysis of only the first 50 records; the remaining records get no
    analysis (the result has exactly 50 entries). -/
theorem large_site_skips_page_analysis (call : List PageRecord → Nat → Except String String)
    (pageData : List PageRecord) (scheds : List (List Nat))
    (hlarge : pageData.length > 1000) :
    analyzeIndividualPages call pageData scheds = generateBasicPageAnalysis pageData ∧
    generateBasicPageAnalysis pageData = (pageData.take 50).map basicAnalysisOne ∧
    (analyzeIndividualPages call pageData scheds).length = 50 := by
  have h1 : analyzeIndividualPages call pageData scheds = generateBasicPageAnalysis pageData := by
    unfold analyzeIndividualPages
    rw [if_pos hlarge]
  refine ⟨h1, rfl, ?_⟩
  rw [h1]
  unfold generateBasicPageAnalysis
  rw [List.length_map, List.length_take]
  omega

/-- C10 witness: 1001 identical records. -/
theorem large_site_skips_page_analysis_witness :
    (List.replicate 1001 ({} : PageRecord)).length > 1000 ∧
    (analyzeIndividualPages (fun _ _ => Except.ok "resp") (List.replicate 1001 {}) [] =
      generateBasicPageAnalysis (List.replicate 1001 {}) ∧
    generateBasicPageAnalysis (List.replicate 1001 ({} : PageRecord)) =
      ((List.replicate 1001 ({} : PageRecord)).take 50).map basicAnalysisOne ∧
    (analyzeIndividualPages (fun _ _ => Except.ok "resp")
      (List.replicate 1001 ({} : PageRecord)) []).length = 50) :=
  ⟨by rw [List.length_replicate]; omega,
   large_site_skips_page_analysis (fun _ _ => Except.ok "resp") (List.replicate 1001 {}) []
     (by rw [List.length_replicate]; omega)⟩

/-! ## Response parsing (C4, C6) -/

/-- C4 counterexample: an empty response against a one-record batch yields
    zero analyses, not one fallback analysis per record — the input record is
    silently dropped. -/
theorem parse_drops_record_without_section :
    parsePageAnalysisResponse "" [({} : PageRecord)] = [] ∧
    ([({} : PageRecord)] : List PageRecord).length = 1 := by
  constructor
  · decide
  · decide

/-- C4 (amended): the parser returns at most one PageAnalysis per delimited
    non-blank section of the response (exactly one per section whose
    extracted url is non-empty, aligned by position; extraction is total, so
    the per-section exception fallback never fires). In particular, when the
    response contains fewer sections than the batch has records, the excess
    records receive no analysis. -/
theorem parse_at_most_one_per_section (response : String) (batch : List PageRecord) :
    (parsePageAnalysisResponse response batch).length ≤ numSections response := by
  unfold parsePageAnalysisResponse numSections
  calc ((((jsSplitOn response "---").filter (fun s => jsTrim s ≠ "")).enum).filterMap _).length
      ≤ (((jsSplitOn response "---").filter (fun s => jsTrim s ≠ "")).enum).length :=
        List.length_filterMap_le _ _
    _ = _ := List.enum_length

/-- C6: when the response text contains no parseable `SEO SCORE:` field, the
    extracted analysis carries the deterministic fallback score — 50, +15 for
    a present title, +15 for a present meta description, +10 for a present
    H1, +10 for word count above 300, +10 for status code 200, clamped to at
    most 100 (and hence within [0, 100]). -/
theorem missing_score_uses_fallback_formula (text : String) (page : PageRecord)
    (habsent : scanScore text.data = none) :
    (extractPageData text (some page)).seoScore =
      min 100 (50 + (if truthy page.title then 15 else 0)
        + (if truthy page.metaDescription1 then 15 else 0)
        + (if truthy page.h1First then 10 else 0)
        + (if jsParseIntField page.wordCount > 300 then 10 else 0)
        + (if page.statusCode = some "200" then 10 else 0)) ∧
    (extractPageData text (some page)).seoScore ≤ 100 := by
  have hscore : (extractPageData text (some page)).seoScore = calculateBasicScore (some page) := by
    unfold extractPageData
    dsimp only
    rw [habsent]
  rw [hscore]
  unfold calculateBasicScore
  dsimp only [Option.bind]
  constructor
  · split_ifs <;> omega
  · split_ifs <;> omega

/-- C6 witness: a record with title, meta description and H1 present, word
    count 400 and status 200, against a response with no score field, gets
    fallback score 100. -/
theorem missing_score_uses_fallback_formula_witness :
    scanScore "no numeric field here".data = none ∧
    ((extractPageData "no numeric field here"
        (some { title := some "T", metaDescription1 := some "M", h1First := some "H",
                wordCount := some "400", statusCode := some "200" })).seoScore =
      min 100 (50 + 15 + 15 + 10 + 10 + 10) ∧
    (extractPageData "no numeric field here"
        (some { title := some "T", metaDescription1 := some "M", h1First := some "H",
                wordCount := some "400", statusCode := some "200" })).seoScore = 100) := by
  have happ := missing_score_uses_fallback_formula "no numeric field here"
    { title := some "T", metaDescription1 := some "M", h1First := some "H",
      wordCount := some "400", statusCode := some "200" } (by decide)
  refine ⟨by decide, ?_, by decide⟩
  have := happ.1
  simpa using this

/-! ## Aggregation is order-independent (C8) -/

/-- C8: aggregation is order-independent: permuting the input PageAnalysis
    list leaves every `_extractKeyMetrics` value — in particular the average
    score and the score-band histogram — and the whole issue-frequency table
    (the count of every normalised issue) unchanged. -/
theorem aggregation_perm_invariant (l1 l2 : List ReportPage) (hp : l1.Perm l2) :
    extractKeyMetrics l1 = extractKeyMetrics l2 ∧
    ∀ issue : String, issueCount l1 issue = issueCount l2 issue := by
  have hsc : (l1.filterMap (·.seoScore)).Perm (l2.filterMap (·.seoScore)) :=
    hp.filterMap _
  have hlen : l1.length = l2.length := hp.length_eq
  have hsum : (l1.filterMap (·.seoScore)).sum = (l2.filterMap (·.seoScore)).sum :=
    hsc.sum_eq
  have hslen : (l1.filterMap (·.seoScore)).length = (l2.filterMap (·.seoScore)).length :=
    hsc.length_eq
  have hfH : (l1.filter (fun p => p.priority == some "High")).length =
      (l2.filter (fun p => p.priority == some "High")).length :=
    (hp.filter _).length_eq
  have hfM : (l1.filter (fun p => p.priority == some "Medium")).length =
      (l2.filter (fun p => p.priority == some "Medium")).length :=
    (hp.filter _).length_eq
  have hfL : (l1.filter (fun p => p.priority == some "Low")).length =
      (l2.filter (fun p => p.priority == some "Low")).length :=
    (hp.filter _).length_eq
  have hd1 : ((l1.filterMap (·.seoScore)).filter (fun s => decide (90 ≤ s))).length =
      ((l2.filterMap (·.seoScore)).filter (fun s => decide (90 ≤ s))).length :=
    (hsc.filter _).length_eq
  have hd2 : ((l1.filterMap (·.seoScore)).filter (fun s => decide (80 ≤ s ∧ s < 90))).length =
      ((l2.filterMap (·.seoScore)).filter (fun s => decide (80 ≤ s ∧ s < 90))).length :=
    (hsc.filter _).length_eq
  have hd3 : ((l1.filterMap (·.seoScore)).filter (fun s => decide (70 ≤ s ∧ s < 80))).length =
      ((l2.filterMap (·.seoScore)).filter (fun s => decide (70 ≤ s ∧ s < 80))).length :=
    (hsc.filter _).length_eq
  have hd4 : ((l1.filterMap (·.seoScore)).filter (fun s => decide (60 ≤ s ∧ s < 70))).length =
      ((l2.filterMap (·.seoScore)).filter (fun s => decide (60 ≤ s ∧ s < 70))).length :=
    (hsc.filter _).length_eq
  have hd5 : ((l1.filterMap (·.seoScore)).filter (fun s => decide (s < 60))).length =
      ((l2.filterMap (·.seoScore)).filter (fun s => decide (s < 60))).length :=
    (hsc.filter _).length_eq
  have hd6 : ((l1.filterMap (·.seoScore)).filter (fun s => decide (s < 70))).length =
      ((l2.filterMap (·.seoScore)).filter (fun s => decide (s < 70))).length :=
    (hsc.filter _).length_eq
  have hci : (l1.map (fun p => (p.issues.getD []).length)).sum =
      (l2.map (fun p => (p.issues.getD []).length)).sum :=
    (hp.map _).sum_eq
  have hqw : (l1.map (fun p => (p.quickWins.getD []).length)).sum =
      (l2.map (fun p => (p.quickWins.getD []).length)).sum :=
    (hp.map _).sum_eq
  constructor
  · unfold extractKeyMetrics
    dsimp only
    rw [hsum, hslen, hlen, hfH, hfM, hfL, hd1, hd2, hd3, hd4, hd5, hd6, hci, hqw]
  · intro issue
    unfold issueCount
    exact (hp.map _).sum_eq

/-- C8 witness: two concrete analyses in both orders produce identical
    metrics and issue counts. -/
theorem aggregation_perm_invariant_witness :
    ([⟨some 72, some "High", some ["Thin content"], some []⟩,
      ⟨some 90, some "Low", some ["thin content", "Missing H1"], none⟩] : List ReportPage).Perm
      [⟨some 90, some "Low", some ["thin content", "Missing H1"], none⟩,
       ⟨some 72, some "High", some ["Thin content"], some []⟩] ∧
    (extractKeyMetrics
        [⟨some 72, some "High", some ["Thin content"], some []⟩,
         ⟨some 90, some "Low", some ["thin content", "Missing H1"], none⟩] =
      extractKeyMetrics
        [⟨some 90, some "Low", some ["thin content", "Missing H1"], none⟩,
         ⟨some 72, some "High", some ["Thin content"], some []⟩] ∧
    ∀ issue : String,
      issueCount
        [⟨some 72, some "High", some ["Thin content"], some []⟩,
         ⟨some 90, some "Low", some ["thin content", "Missing H1"], none⟩] issue =
      issueCount
        [⟨some 90, some "Low", some ["thin content", "Missing H1"], none⟩,
         ⟨some 72, some "High", some ["Thin content"], some []⟩] issue) :=
  ⟨by decide,
   aggregation_perm_invariant
     [⟨some 72, some "High", some ["Thin content"], some []⟩,
      ⟨some 90, some "Low", some ["thin content", "Missing H1"], none⟩]
     [⟨some 90, some "Low", some ["thin content", "Missing H1"], none⟩,
      ⟨some 72, some "High", some ["Thin content"], some []⟩]
     (by decide)⟩

end SeoAudit
